import Mathlib

/-!
Verification of the dependency-version core of `src/dep_types.rs`
(version model, constraint engine, range algebra, requirement parsing).

The definitions below are a shallow embedding of the Rust source:
`u32` components become `Nat` (parsing enforces the `u32` bound explicitly),
`Ordering` is Lean's `Ordering`, `Vec` becomes `List`, and fallible parsing
returns `Except DependencyError`.
-/

namespace DepTypes

/-- `pub const MAX_VER: u32 = 999_999;` -/
def MAX_VER : Nat := 999999

/-- `u32::cmp` on the `Nat` embedding of `u32` values. -/
def natCmp (a b : Nat) : Ordering :=
  if a < b then Ordering.lt else if a = b then Ordering.eq else Ordering.gt

/-- `pub struct DependencyError { pub details: String }` -/
structure DependencyError where
  details : String
deriving DecidableEq, Repr

/-- `pub enum VersionModifier { Alpha, Beta, ReleaseCandidate, Dep, Null }` -/
inductive VersionModifier
  | Alpha
  | Beta
  | ReleaseCandidate
  | Dep
  | Null
deriving DecidableEq, Repr

/-- `VersionModifier::orderval` -/
def VersionModifier.orderval : VersionModifier → Nat
  | VersionModifier.Null => 4
  | VersionModifier.ReleaseCandidate => 3
  | VersionModifier.Beta => 2
  | VersionModifier.Alpha => 1
  | VersionModifier.Dep => 0

/-- `impl FromStr for VersionModifier` -/
def VersionModifier.from_str (s : String) : Except DependencyError VersionModifier :=
  if s = "a" then Except.ok VersionModifier.Alpha
  else if s = "b" then Except.ok VersionModifier.Beta
  else if s = "rc" then Except.ok VersionModifier.ReleaseCandidate
  else if s = "dep" then Except.ok VersionModifier.Dep
  else Except.error ⟨"Problem parsing version modifier"⟩

/-- `pub struct Version` -/
structure Version where
  major : Nat
  minor : Nat
  patch : Nat
  extra_num : Option Nat
  modifier : Option (VersionModifier × Nat)
deriving DecidableEq, Repr

/-- `Version::new` -/
def Version.new (major minor patch : Nat) : Version :=
  ⟨major, minor, patch, none, none⟩

/-- `Version::new_short` -/
def Version.new_short (major minor : Nat) : Version :=
  ⟨major, minor, 0, none, none⟩

/-- `Version::_max` -/
def Version._max : Version :=
  Version.new MAX_VER 0 0

/-- `impl Ord for Version`: `fn cmp`.  `self.modifier.unwrap_or((Null, 0))` is
`Option.getD`; each numeric comparison is `u32::cmp`, and the modifier variants
compare by `orderval`. -/
def Version.cmp (s o : Version) : Ordering :=
  if s.major ≠ o.major then natCmp s.major o.major
  else if s.minor ≠ o.minor then natCmp s.minor o.minor
  else if s.patch ≠ o.patch then natCmp s.patch o.patch
  else if s.extra_num ≠ o.extra_num then
    natCmp (s.extra_num.getD 0) (o.extra_num.getD 0)
  else if (s.modifier.getD (VersionModifier.Null, 0)).1 ≠
      (o.modifier.getD (VersionModifier.Null, 0)).1 then
    natCmp (s.modifier.getD (VersionModifier.Null, 0)).1.orderval
      (o.modifier.getD (VersionModifier.Null, 0)).1.orderval
  else
    natCmp (s.modifier.getD (VersionModifier.Null, 0)).2
      (o.modifier.getD (VersionModifier.Null, 0)).2

/-- Rust `a < b` for `Version` (derived from `Ord`). -/
def vlt (a b : Version) : Bool :=
  match Version.cmp a b with
  | Ordering.lt => true
  | _ => false

/-- Rust `a > b` for `Version`. -/
def vgt (a b : Version) : Bool :=
  match Version.cmp a b with
  | Ordering.gt => true
  | _ => false

/-- Rust `a <= b` for `Version`. -/
def vle (a b : Version) : Bool :=
  match Version.cmp a b with
  | Ordering.gt => false
  | _ => true

/-- Rust `a >= b` for `Version`. -/
def vge (a b : Version) : Bool :=
  match Version.cmp a b with
  | Ordering.lt => false
  | _ => true

/-- Rust `std::cmp::max(v1, v2)`: returns `v2` on `Less | Equal`, `v1` on `Greater`. -/
def vmaxR (v1 v2 : Version) : Version :=
  match Version.cmp v1 v2 with
  | Ordering.gt => v1
  | _ => v2

/-- Rust `std::cmp::min(v1, v2)`: returns `v1` on `Less | Equal`, `v2` on `Greater`. -/
def vminR (v1 v2 : Version) : Version :=
  match Version.cmp v1 v2 with
  | Ordering.gt => v2
  | _ => v1

/-- `pub enum ReqType` -/
inductive ReqType
  | Exact
  | Gte
  | Lte
  | Ne
  | Gt
  | Lt
  | Caret
  | Tilde
deriving DecidableEq, BEq, Repr

/-- `impl FromStr for ReqType` -/
def ReqType.from_str (s : String) : Except DependencyError ReqType :=
  if s = "==" then Except.ok ReqType.Exact
  else if s = ">=" then Except.ok ReqType.Gte
  else if s = "<=" then Except.ok ReqType.Lte
  else if s = ">" then Except.ok ReqType.Gt
  else if s = "<" then Except.ok ReqType.Lt
  else if s = "!=" then Except.ok ReqType.Ne
  else if s = "^" then Except.ok ReqType.Caret
  else if s = "~" then Except.ok ReqType.Tilde
  else Except.error ⟨"Problem parsing ReqType"⟩

/-- `pub struct Constraint { pub type_: ReqType, pub version: Version }` -/
structure Constraint where
  type_ : ReqType
  version : Version
deriving DecidableEq, Repr

/-- `Constraint::new` -/
def Constraint.new (type_ : ReqType) (version : Version) : Constraint :=
  ⟨type_, version⟩

/-- The `safely_subtract` closure inside `Constraint::compatible_range`. -/
def safely_subtract (major minor patch : Nat) : Nat × Nat × Nat :=
  if major = 0 ∧ minor = 0 ∧ patch = 0 then (major, minor, patch)
  else if minor = 0 ∧ patch = 0 then (major - 1, MAX_VER, MAX_VER)
  else if patch = 0 then (major, minor - 1, MAX_VER)
  else (major, minor, patch - 1)

/-- `Constraint::compatible_range` -/
def Constraint.compatible_range (c : Constraint) : List (Version × Version) :=
  let highest := Version.new MAX_VER 0 0
  let lowest := Version.new 0 0 0
  match c.type_ with
  | ReqType.Exact => [(c.version, c.version)]
  | ReqType.Gte => [(c.version, highest)]
  | ReqType.Lte => [(lowest, c.version)]
  | ReqType.Gt =>
      [(Version.new c.version.major c.version.minor (c.version.patch + 1), highest)]
  | ReqType.Lt =>
      let t := safely_subtract c.version.major c.version.minor c.version.patch
      [(lowest, Version.new t.1 t.2.1 t.2.2)]
  | ReqType.Ne =>
      let t := safely_subtract c.version.major c.version.minor c.version.patch
      [(lowest, Version.new t.1 t.2.1 t.2.2),
       (Version.new c.version.major c.version.minor (c.version.patch + 1), highest)]
  | ReqType.Caret =>
      let mx :=
        if c.version.major > 0 then Version.new (c.version.major + 1) 0 0
        else if c.version.minor > 0 then Version.new 0 (c.version.minor + 1) 0
        else Version.new 0 0 (c.version.patch + 2)
      let t := safely_subtract mx.major mx.minor mx.patch
      [(c.version, Version.new t.1 t.2.1 t.2.2)]
  | ReqType.Tilde =>
      let mx :=
        if c.version.minor > 0 then Version.new c.version.major (c.version.minor + 1) 0
        else Version.new (c.version.major + 1) 0 0
      let t := safely_subtract mx.major mx.minor mx.patch
      [(c.version, Version.new t.1 t.2.1 t.2.2)]

/-- `Constraint::is_compatible` (note: the `Tilde` arm of the source uses the
strict test `min < *version`, unlike the `Caret` arm's `min <= *version`). -/
def Constraint.is_compatible (c : Constraint) (version : Version) : Bool :=
  match c.type_ with
  | ReqType.Exact => decide (c.version = version)
  | ReqType.Gte => vle c.version version
  | ReqType.Lte => vge c.version version
  | ReqType.Gt => vlt c.version version
  | ReqType.Lt => vgt c.version version
  | ReqType.Ne => decide (c.version ≠ version)
  | ReqType.Caret =>
      let mx :=
        if c.version.major > 0 then Version.new (c.version.major + 1) 0 0
        else if c.version.minor > 0 then Version.new 0 (c.version.minor + 1) 0
        else Version.new 0 0 (c.version.patch + 2)
      vle c.version version && vlt version mx
  | ReqType.Tilde =>
      let mx :=
        if c.version.minor > 0 then Version.new c.version.major (c.version.minor + 1) 0
        else Version.new (c.version.major + 1) 0 0
      vlt c.version version && vlt version mx

/-- `pub fn intersection`: pairwise overlap of two range sets; ranges overlap
iff `rng2.1 >= rng1.0 && rng1.1 >= rng2.0`, and the overlap pushed is
`(max(rng2.0, rng1.0), min(rng1.1, rng2.1))`. -/
def intersection (ranges1 ranges2 : List (Version × Version)) :
    List (Version × Version) :=
  ranges1.foldl (fun result rng1 =>
    ranges2.foldl (fun result rng2 =>
      if vge rng2.2 rng1.1 && vge rng1.2 rng2.1 then
        result ++ [(vmaxR rng2.1 rng1.1, vminR rng1.2 rng2.2)]
      else result) result) []

/-- `fn intersection_many2`: left fold of pairwise `intersection` starting from
`[(0.0.0, MAX_VER.0.0)]`. -/
def intersection_many2 (reqs : List (Version × Version)) : List (Version × Version) :=
  reqs.foldl (fun acc constraint_set => intersection [constraint_set] acc)
    [(Version.new 0 0 0, Version.new MAX_VER 0 0)]

/-- The range each constraint contributes inside `intersection_many`: a `Ne`
constraint is replaced by the full pass-through range `(0.0.0, Version::_max())`
(its version is only pushed onto the unused `nes` vector), every other
constraint contributes `compatible_range()[0]` (always a singleton there). -/
def rangeFor (c : Constraint) : Version × Version :=
  match c.type_ with
  | ReqType.Ne => (Version.new 0 0 0, Version._max)
  | _ => c.compatible_range.headD (Version.new 0 0 0, Version.new 0 0 0)

/-- `pub fn intersection_many` -/
def intersection_many (constrs : List Constraint) : List (Version × Version) :=
  intersection_many2 (constrs.map rangeFor)

/-- Membership of a version in one of the inclusive `(min, max)` ranges of a
`compatible_range()` result (the spec's notion of `v ∈ c.compatible_range()`). -/
def inRanges (rs : List (Version × Version)) (v : Version) : Bool :=
  rs.any (fun r => vle r.1 v && vle v r.2)

/-- The spec's `next_breaking` bound for a caret requirement:
`(major+1).0.0` if `major>0`, else `0.(minor+1).0` if `minor>0`,
else `0.0.(patch+2)`. -/
def nextBreaking (v : Version) : Version :=
  if v.major > 0 then Version.new (v.major + 1) 0 0
  else if v.minor > 0 then Version.new 0 (v.minor + 1) 0
  else Version.new 0 0 (v.patch + 2)

/-!
Parsing layer.  `FromStr for Version` matches the anchored regex
`^(\d+)\.?(\d+)?\.?(\d+)?\.?(\d+)?(?:(a|b|rc|dep)(\d+))?$` with Rust's
leftmost-first (Perl-style) semantics.  The matcher below enumerates the
engine's alternatives in exactly that preference order (greedy quantifiers
longest-first, alternation left-to-right, earlier choice points varying
slowest) and takes the first full match.
-/

/-- Numeric value of a digit string (captures are all-digit by construction). -/
def digitsToNat (ds : List Char) : Nat :=
  ds.foldl (fun n c => n * 10 + (c.toNat - 48)) 0

/-- All ways `(\d+)` can match a prefix, greedy order (longest first). -/
def digitsSplits (cs : List Char) : List (List Char × List Char) :=
  let n := (cs.takeWhile Char.isDigit).length
  (List.range n).map (fun i => (cs.take (n - i), cs.drop (n - i)))

/-- `\.?` alternatives in greedy order: consume a leading dot first. -/
def optDot (cs : List Char) : List (List Char) :=
  match cs with
  | '.' :: r => [r, '.' :: r]
  | _ => [cs]

/-- `(\d+)?` alternatives: participating (longest first), then skipped. -/
def optNum (cs : List Char) : List (Option (List Char) × List Char) :=
  (digitsSplits cs).map (fun p => (some p.1, p.2)) ++ [(none, cs)]

/-- `(a|b|rc|dep)` alternatives at the current position, left-to-right. -/
def tagAlts (cs : List Char) : List (String × List Char) :=
  (if cs.take 1 = ['a'] then [("a", cs.drop 1)] else [])
    ++ (if cs.take 1 = ['b'] then [("b", cs.drop 1)] else [])
    ++ (if cs.take 2 = ['r', 'c'] then [("rc", cs.drop 2)] else [])
    ++ (if cs.take 3 = ['d', 'e', 'p'] then [("dep", cs.drop 3)] else [])

/-- `(?:(a|b|rc|dep)(\d+))?` alternatives: tag then digits, else skipped
(the two inner captures participate together or not at all). -/
def modGroupAlts (cs : List Char) :
    List (Option String × Option (List Char) × List Char) :=
  ((tagAlts cs).flatMap (fun t =>
    (digitsSplits t.2).map (fun p => (some t.1, some p.1, p.2))))
    ++ [(none, none, cs)]

/-- Capture groups of the version regex. -/
structure VerCaps where
  g1 : List Char
  g2 : Option (List Char)
  g3 : Option (List Char)
  g4 : Option (List Char)
  g5 : Option String
  g6 : Option (List Char)
deriving DecidableEq, Repr

/-- Full anchored match of the version regex, first match in the engine's
preference order. -/
def matchVersion (cs : List Char) : Option VerCaps :=
  ((digitsSplits cs).flatMap (fun d1 =>
    (optDot d1.2).flatMap (fun r2 =>
      (optNum r2).flatMap (fun g2 =>
        (optDot g2.2).flatMap (fun r4 =>
          (optNum r4).flatMap (fun g3 =>
            (optDot g3.2).flatMap (fun r6 =>
              (optNum r6).flatMap (fun g4 =>
                (modGroupAlts g4.2).flatMap (fun m =>
                  if m.2.2 = [] then [⟨d1.1, g2.1, g3.1, g4.1, m.1, m.2.1⟩]
                  else []))))))))).head?

/-- `str::parse::<u32>` on an all-digit capture: fails exactly on overflow
(`From<num::ParseIntError> for DependencyError` yields "Pare int error"). -/
def parseU32 (ds : List Char) : Except DependencyError Nat :=
  let n := digitsToNat ds
  if n < 4294967296 then Except.ok n else Except.error ⟨"Pare int error"⟩

/-- `s.replace("*", "0")` — wildcards are treated as 0. -/
def replaceStar (cs : List Char) : List Char :=
  cs.map (fun c => if c = '*' then '0' else c)

/-- `impl FromStr for Version`.  Field initializers run in source order
(major, minor, patch, extra_num, modifier), each `?` propagating the error. -/
def Version.from_str (s : String) : Except DependencyError Version :=
  let cs := replaceStar s.toList
  match matchVersion cs with
  | some caps => do
      let major ← parseU32 caps.g1
      let minor ← match caps.g2 with
        | some mi => parseU32 mi
        | none => Except.ok 0
      let patch ← match caps.g3 with
        | some p => parseU32 p
        | none => Except.ok 0
      let extra_num ← match caps.g4 with
        | some ex => do
            let n ← parseU32 ex
            Except.ok (some n)
        | none => Except.ok (none : Option Nat)
      let modifier ← match caps.g5 with
        | some m => do
            let mo ← VersionModifier.from_str m
            match caps.g6 with
            | some ns => do
                let n ← parseU32 ns
                Except.ok (some (mo, n))
            | none =>
                Except.error ⟨"Problem parsing version modifier: " ++ String.mk cs⟩
        | none => Except.ok (none : Option (VersionModifier × Nat))
      Except.ok ⟨major, minor, patch, extra_num, modifier⟩
  | none => Except.error ⟨"Problem parsing version: " ++ String.mk cs⟩

/-- The optional leading-operator group of the constraint regex
`^(\^|~|==|<=|>=|<|>|!=)?(.*)$` (alternation left-to-right; the greedy
trailing `(.*)$` always matches, so no backtracking can occur). -/
def leadingOp (cs : List Char) : Option String × List Char :=
  match cs with
  | '^' :: r => (some "^", r)
  | '~' :: r => (some "~", r)
  | '=' :: '=' :: r => (some "==", r)
  | '<' :: '=' :: r => (some "<=", r)
  | '>' :: '=' :: r => (some ">=", r)
  | '<' :: r => (some "<", r)
  | '>' :: r => (some ">", r)
  | '!' :: '=' :: r => (some "!=", r)
  | _ => (none, cs)

/-- `impl FromStr for Constraint` -/
def Constraint.from_str (s : String) : Except DependencyError Constraint :=
  if s = "*" then Except.ok (Constraint.new ReqType.Gte (Version.new 0 0 0))
  else do
    let p := leadingOp s.toList
    let type_ ← match p.1 with
      | some t => ReqType.from_str t
      | none => Except.ok ReqType.Exact
    let version ← Version.from_str (String.mk p.2)
    Except.ok (Constraint.new type_ version)

/-- Modelled from the spec: the platform identifier `crate::Os` lives outside
the core source files (it is referenced as `crate::Os`); only its existence as
a value type matters for the `Req` model here. -/
inductive Os
  | Windows32
  | Linux
  | Mac
  | AnyOs
deriving DecidableEq, Repr

/-- `pub struct Req` -/
structure Req where
  name : String
  constraints : List Constraint
  extra : Option String
  sys_platform : Option (ReqType × Os)
  python_version : Option Constraint
  install_with_extras : Option (List String)
deriving DecidableEq, Repr

/-- `Req::new` -/
def Req.new (name : String) (constraints : List Constraint) : Req :=
  ⟨name, constraints, none, none, none, none⟩

/-- Outcome of `Req::from_pip_str`, which returns `Option<Req>` but can also
panic through `.expect("Problem parsing requirement")`. -/
inductive PipResult
  | panicked (msg : String)
  | noReq
  | someReq (r : Req)
deriving DecidableEq, Repr

/-- Splits at the first position where the alternation
`(?:\^|~|==|<=|>=|<|>|!=)` matches (the lazy `^(.*?)` prefix makes the engine
take the leftmost such position); `none` when no operator occurs. -/
def findOpSplit : List Char → Option (List Char × List Char)
  | [] => none
  | c :: r =>
      if (match c :: r with
          | '^' :: _ => true
          | '~' :: _ => true
          | '=' :: '=' :: _ => true
          | '<' :: _ => true
          | '>' :: _ => true
          | '!' :: '=' :: _ => true
          | _ => false) then
        some ([], c :: r)
      else
        (findOpSplit r).map (fun p => (c :: p.1, p.2))

/-- `Req::from_pip_str`: bare name via `^([a-zA-Z\-0-9]+)$`, otherwise split by
`^(.*?)((?:\^|~|==|<=|>=|<|>|!=).*)$` and parse the constraint, where a
constraint parse failure hits `.expect(...)` and panics. -/
def Req.from_pip_str (s : String) : PipResult :=
  if s.toList ≠ [] ∧ s.toList.all (fun c => c.isAlpha || c.isDigit || c = '-') then
    PipResult.someReq (Req.new s [])
  else
    match findOpSplit s.toList with
    | none => PipResult.noReq
    | some p =>
        match Constraint.from_str (String.mk p.2) with
        | Except.ok c => PipResult.someReq (Req.new (String.mk p.1) [c])
        | Except.error _ => PipResult.panicked "Problem parsing requirement"

/-!
Side conditions used by the theorems.  A "simple" version is one whose
`extra_num` and `modifier` are both absent; on simple versions `Version.cmp`
is the lexicographic comparison of the `(major, minor, patch)` triple and is
antisymmetric with respect to structural equality.  (On non-simple versions it
is not: `{0,0,0,extra_num: Some 0}` compares `Equal` to `0.0.0` even though the
two values are structurally distinct.)
-/

/-- A version with no extra numeric segment and no pre-release modifier. -/
def simpleV (v : Version) : Prop :=
  v.extra_num = none ∧ v.modifier = none

/-- Strict lexicographic order of `(major, minor, patch)` triples. -/
def ltTriple (u w : Version) : Prop :=
  u.major < w.major ∨
    (u.major = w.major ∧
      (u.minor < w.minor ∨ (u.minor = w.minor ∧ u.patch < w.patch)))

instance simpleV.instDecidable (v : Version) : Decidable (simpleV v) := by
  unfold simpleV
  infer_instance

instance ltTriple.instDecidable (u w : Version) : Decidable (ltTriple u w) := by
  unfold ltTriple
  infer_instance

end DepTypes

namespace DepTypes

theorem natCmp_lt {a b : Nat} : natCmp a b = Ordering.lt ↔ a < b := by
  unfold natCmp
  split_ifs <;> simp <;> omega

theorem natCmp_eq {a b : Nat} : natCmp a b = Ordering.eq ↔ a = b := by
  unfold natCmp
  split_ifs <;> simp <;> omega

theorem natCmp_gt {a b : Nat} : natCmp a b = Ordering.gt ↔ b < a := by
  unfold natCmp
  split_ifs <;> simp <;> omega

theorem natCmp_swap (a b : Nat) : (natCmp a b).swap = natCmp b a := by
  unfold natCmp
  split_ifs <;> simp [Ordering.swap] <;> omega

/-- `Version.cmp` is antisymmetric as an `Ordering`-valued comparison
(this holds for all versions, simple or not). -/
theorem cmp_swap (u w : Version) : (Version.cmp u w).swap = Version.cmp w u := by
  unfold Version.cmp
  by_cases h1 : u.major = w.major
  · by_cases h2 : u.minor = w.minor
    · by_cases h3 : u.patch = w.patch
      · by_cases h4 : u.extra_num = w.extra_num
        · by_cases h5 : (u.modifier.getD (VersionModifier.Null, 0)).1 =
              (w.modifier.getD (VersionModifier.Null, 0)).1
          · simp [h1, h2, h3, h4, h5, natCmp_swap]
          · simp [h1, h2, h3, h4, h5, Ne.symm h5, natCmp_swap]
        · simp [h1, h2, h3, h4, Ne.symm h4, natCmp_swap]
      · simp [h1, h2, h3, Ne.symm h3, natCmp_swap]
    · simp [h1, h2, Ne.symm h2, natCmp_swap]
  · simp [h1, Ne.symm h1, natCmp_swap]

theorem simple_cmp_lt {u w : Version} (hu : simpleV u) (hw : simpleV w) :
    Version.cmp u w = Ordering.lt ↔ ltTriple u w := by
  obtain ⟨hu1, hu2⟩ := hu
  obtain ⟨hw1, hw2⟩ := hw
  unfold Version.cmp ltTriple
  rw [hu1, hw1, hu2, hw2]
  simp only [ne_eq, Option.getD_none, not_true_eq_false, if_false]
  split_ifs with h1 h2 h3 <;>
    simp [natCmp_lt, natCmp_eq, natCmp_gt, natCmp] <;> omega

theorem simple_cmp_eq {u w : Version} (hu : simpleV u) (hw : simpleV w) :
    Version.cmp u w = Ordering.eq ↔
      (u.major = w.major ∧ u.minor = w.minor ∧ u.patch = w.patch) := by
  obtain ⟨hu1, hu2⟩ := hu
  obtain ⟨hw1, hw2⟩ := hw
  unfold Version.cmp
  rw [hu1, hw1, hu2, hw2]
  simp only [ne_eq, Option.getD_none, not_true_eq_false, if_false]
  split_ifs with h1 h2 h3 <;>
    simp [natCmp_lt, natCmp_eq, natCmp_gt, natCmp] <;> omega

theorem simple_cmp_gt {u w : Version} (hu : simpleV u) (hw : simpleV w) :
    Version.cmp u w = Ordering.gt ↔ ltTriple w u := by
  obtain ⟨hu1, hu2⟩ := hu
  obtain ⟨hw1, hw2⟩ := hw
  unfold Version.cmp ltTriple
  rw [hu1, hw1, hu2, hw2]
  simp only [ne_eq, Option.getD_none, not_true_eq_false, if_false]
  split_ifs with h1 h2 h3 <;>
    simp [natCmp_lt, natCmp_eq, natCmp_gt, natCmp] <;> omega

theorem simple_eq_of_cmp_eq {u w : Version} (hu : simpleV u) (hw : simpleV w)
    (h : Version.cmp u w = Ordering.eq) : u = w := by
  have ht := (simple_cmp_eq hu hw).mp h
  obtain ⟨hu1, hu2⟩ := hu
  obtain ⟨hw1, hw2⟩ := hw
  obtain ⟨h1, h2, h3⟩ := ht
  cases u
  cases w
  simp_all

theorem simple_eq_of_triple {u w : Version} (hu : simpleV u) (hw : simpleV w)
    (h1 : u.major = w.major) (h2 : u.minor = w.minor) (h3 : u.patch = w.patch) :
    u = w := by
  obtain ⟨hu1, hu2⟩ := hu
  obtain ⟨hw1, hw2⟩ := hw
  cases u
  cases w
  simp_all

theorem simple_vge {u w : Version} (hu : simpleV u) (hw : simpleV w) :
    vge u w = true ↔ ¬ ltTriple u w := by
  unfold vge
  rcases h : Version.cmp u w with _ | _ | _
  · simp [(simple_cmp_lt hu hw).mp h]
  · have := (simple_cmp_eq hu hw).mp h
    simp only [ltTriple]
    simp
    omega
  · have := (simple_cmp_gt hu hw).mp h
    simp only [ltTriple] at this ⊢
    simp
    omega

theorem simple_vle {u w : Version} (hu : simpleV u) (hw : simpleV w) :
    vle u w = true ↔ ¬ ltTriple w u := by
  unfold vle
  rcases h : Version.cmp u w with _ | _ | _
  · have := (simple_cmp_lt hu hw).mp h
    simp only [ltTriple] at this ⊢
    simp
    omega
  · have := (simple_cmp_eq hu hw).mp h
    simp only [ltTriple]
    simp
    omega
  · simp [(simple_cmp_gt hu hw).mp h]

theorem simple_vmaxR {u w : Version} (hu : simpleV u) (hw : simpleV w) :
    vmaxR u w = if ltTriple w u then u else w := by
  unfold vmaxR
  rcases h : Version.cmp u w with _ | _ | _
  · have hlt := (simple_cmp_lt hu hw).mp h
    have : ¬ ltTriple w u := by
      simp only [ltTriple] at hlt ⊢
      omega
    simp [this]
  · have heq := simple_eq_of_cmp_eq hu hw h
    subst heq
    have : ¬ ltTriple u u := by
      simp only [ltTriple]
      omega
    simp [this]
  · have hgt := (simple_cmp_gt hu hw).mp h
    simp [hgt]

theorem simple_vminR {u w : Version} (hu : simpleV u) (hw : simpleV w) :
    vminR u w = if ltTriple w u then w else u := by
  unfold vminR
  rcases h : Version.cmp u w with _ | _ | _
  · have hlt := (simple_cmp_lt hu hw).mp h
    have : ¬ ltTriple w u := by
      simp only [ltTriple] at hlt ⊢
      omega
    simp [this]
  · have heq := simple_eq_of_cmp_eq hu hw h
    subst heq
    have : ¬ ltTriple u u := by
      simp only [ltTriple]
      omega
    simp [this]
  · have hgt := (simple_cmp_gt hu hw).mp h
    simp [hgt]

theorem simpleV_new (a b c : Nat) : simpleV (Version.new a b c) := by
  simp [simpleV, Version.new]

theorem simpleV_max : simpleV Version._max := by
  simp [simpleV, Version._max, Version.new]

/-- `0.0.0` is a lower bound for every simple version. -/
theorem not_ltTriple_zero {u : Version} : ¬ ltTriple u (Version.new 0 0 0) := by
  simp only [ltTriple, Version.new]
  omega

theorem inner_fold_eq (rng1 : Version × Version) (l res : List (Version × Version)) :
    l.foldl (fun result rng2 =>
        if vge rng2.2 rng1.1 && vge rng1.2 rng2.1 then
          result ++ [(vmaxR rng2.1 rng1.1, vminR rng1.2 rng2.2)]
        else result) res
      = res ++ l.filterMap (fun rng2 =>
          if vge rng2.2 rng1.1 && vge rng1.2 rng2.1 then
            some (vmaxR rng2.1 rng1.1, vminR rng1.2 rng2.2)
          else none) := by
  induction l generalizing res with
  | nil => simp
  | cons x xs ih =>
      by_cases h : (vge x.2 rng1.1 && vge rng1.2 x.1) = true
      · rw [List.foldl_cons, if_pos h, ih, List.filterMap_cons, if_pos h]
        simp
      · rw [List.foldl_cons, if_neg h, ih, List.filterMap_cons, if_neg h]

/-- Closed form of `intersection` as the pairwise cross product of overlaps. -/
theorem intersection_eq (ranges1 ranges2 : List (Version × Version)) :
    intersection ranges1 ranges2
      = ranges1.flatMap (fun rng1 => ranges2.filterMap (fun rng2 =>
          if vge rng2.2 rng1.1 && vge rng1.2 rng2.1 then
            some (vmaxR rng2.1 rng1.1, vminR rng1.2 rng2.2)
          else none)) := by
  unfold intersection
  suffices h : ∀ (l res : List (Version × Version)),
      l.foldl (fun result rng1 =>
        ranges2.foldl (fun result rng2 =>
          if vge rng2.2 rng1.1 && vge rng1.2 rng2.1 then
            result ++ [(vmaxR rng2.1 rng1.1, vminR rng1.2 rng2.2)]
          else result) result) res
        = res ++ l.flatMap (fun rng1 => ranges2.filterMap (fun rng2 =>
            if vge rng2.2 rng1.1 && vge rng1.2 rng2.1 then
              some (vmaxR rng2.1 rng1.1, vminR rng1.2 rng2.2)
            else none)) by
    simpa using h ranges1 []
  intro l
  induction l with
  | nil => simp
  | cons x xs ih =>
      intro res
      rw [List.foldl_cons, inner_fold_eq, ih]
      simp

/-- `intersection` with a single left range acts entrywise on the right list. -/
theorem intersection_single (r : Version × Version) (acc : List (Version × Version)) :
    intersection [r] acc = acc.filterMap (fun e =>
      if vge e.2 r.1 && vge r.2 e.1 then some (vmaxR e.1 r.1, vminR r.2 e.2)
      else none) := by
  rw [intersection_eq]
  simp

theorem filterMap_id_of {α : Type} (l : List α) (f : α → Option α)
    (h : ∀ e ∈ l, f e = some e) : l.filterMap f = l := by
  induction l with
  | nil => simp
  | cons x xs ih =>
      rw [List.filterMap_cons, h x (by simp)]
      rw [ih (fun e he => h e (by simp [he]))]

/-- Invariant carried by the accumulator of `intersection_many2` when all
constraint versions are simple: every endpoint is simple and at most
`MAX_VER.0.0`. -/
def AccInv (acc : List (Version × Version)) : Prop :=
  ∀ e ∈ acc, simpleV e.1 ∧ simpleV e.2 ∧
    ¬ ltTriple Version._max e.1 ∧ ¬ ltTriple Version._max e.2

theorem AccInv_init : AccInv [(Version.new 0 0 0, Version.new MAX_VER 0 0)] := by
  intro e he
  simp only [List.mem_singleton] at he
  subst he
  refine ⟨simpleV_new 0 0 0, simpleV_new MAX_VER 0 0, ?_, ?_⟩ <;>
    (simp only [ltTriple, Version._max, Version.new, MAX_VER]; omega)

/-- Folding the full pass-through range `(0.0.0, MAX_VER.0.0)` into an
accumulator satisfying the invariant leaves the accumulator unchanged. -/
theorem step_full (acc : List (Version × Version)) (h : AccInv acc) :
    intersection [(Version.new 0 0 0, Version._max)] acc = acc := by
  rw [intersection_single]
  apply filterMap_id_of
  intro e he
  obtain ⟨h1, h2, h3, h4⟩ := h e he
  have hz : simpleV (Version.new 0 0 0) := simpleV_new 0 0 0
  have hcond1 : vge e.2 (Version.new 0 0 0) = true := by
    rw [simple_vge h2 hz]
    exact not_ltTriple_zero
  have hcond2 : vge Version._max e.1 = true := by
    rw [simple_vge simpleV_max h1]
    exact h3
  rw [hcond1, hcond2]
  simp only [Bool.and_self, if_true]
  have hmax : vmaxR e.1 (Version.new 0 0 0) = e.1 := by
    rw [simple_vmaxR h1 hz]
    by_cases hb : ltTriple (Version.new 0 0 0) e.1
    · simp [hb]
    · have : e.1 = Version.new 0 0 0 := by
        refine simple_eq_of_triple h1 hz ?_ ?_ ?_ <;>
          (have hb2 := @not_ltTriple_zero e.1
           simp only [ltTriple, Version.new] at hb hb2 ⊢
           omega)
      simp [hb, this]
  have hmin : vminR Version._max e.2 = e.2 := by
    rw [simple_vminR simpleV_max h2]
    by_cases hb : ltTriple e.2 Version._max
    · simp [hb]
    · have : Version._max = e.2 := by
        refine simple_eq_of_triple simpleV_max h2 ?_ ?_ ?_ <;>
          (simp only [ltTriple] at hb h4 ⊢
           omega)
      simp [hb, this]
  rw [hmax, hmin]

/-- One fold step with any simple-endpoint range preserves the invariant. -/
theorem step_inv (r : Version × Version) (hr1 : simpleV r.1) (hr2 : simpleV r.2)
    (acc : List (Version × Version)) (h : AccInv acc) :
    AccInv (intersection [r] acc) := by
  rw [intersection_single]
  intro e he
  rw [List.mem_filterMap] at he
  obtain ⟨a, ha, hfa⟩ := he
  obtain ⟨h1, h2, h3, h4⟩ := h a ha
  by_cases hc : (vge a.2 r.1 && vge r.2 a.1) = true
  · rw [if_pos hc] at hfa
    rw [Bool.and_eq_true] at hc
    have hc1 := (simple_vge h2 hr1).mp hc.1
    have hc2 := (simple_vge hr2 h1).mp hc.2
    cases hfa
    constructor
    · rw [simple_vmaxR h1 hr1]
      by_cases hb : ltTriple r.1 a.1 <;> simp [hb, h1, hr1]
    constructor
    · rw [simple_vminR hr2 h2]
      by_cases hb : ltTriple a.2 r.2 <;> simp [hb, h2, hr2]
    constructor
    · rw [simple_vmaxR h1 hr1]
      by_cases hb : ltTriple r.1 a.1
      · simp only [hb, if_true]
        exact h3
      · simp only [hb, if_false]
        simp only [ltTriple] at hc1 h4 ⊢
        omega
    · rw [simple_vminR hr2 h2]
      by_cases hb : ltTriple a.2 r.2
      · simp only [hb, if_true]
        exact h4
      · simp only [hb, if_false]
        simp only [ltTriple] at hb h4 ⊢
        omega
  · rw [if_neg hc] at hfa
    cases hfa

/-- The range contributed by a constraint with a simple version has simple
endpoints. -/
theorem rangeFor_simple (c : Constraint) (hc : simpleV c.version) :
    simpleV (rangeFor c).1 ∧ simpleV (rangeFor c).2 := by
  obtain ⟨hc1, hc2⟩ := hc
  unfold rangeFor Constraint.compatible_range
  cases c.type_ <;>
    simp_all [simpleV, Version.new, Version._max]

/-- For a `Ne` constraint the contributed range is the full pass-through. -/
theorem rangeFor_ne (c : Constraint) (h : c.type_ = ReqType.Ne) :
    rangeFor c = (Version.new 0 0 0, Version._max) := by
  unfold rangeFor
  rw [h]

/-- Dropping the `Ne` constraints from the fold does not change the result
when every constraint version is simple. -/
theorem fold_skip (l : List Constraint) :
    ∀ acc, AccInv acc → (∀ c ∈ l, simpleV c.version) →
      (l.map rangeFor).foldl
          (fun acc constraint_set => intersection [constraint_set] acc) acc
        = ((l.filter (fun c => !(c.type_ == ReqType.Ne))).map rangeFor).foldl
            (fun acc constraint_set => intersection [constraint_set] acc) acc := by
  induction l with
  | nil => intro acc _ _; rfl
  | cons c cs ih =>
      intro acc hacc hl
      by_cases hNe : c.type_ = ReqType.Ne
      · rw [List.map_cons, List.foldl_cons, rangeFor_ne c hNe,
          step_full acc hacc, List.filter_cons]
        have hbeq : (c.type_ == ReqType.Ne) = true := by
          rw [hNe]
          rfl
        have hpred : (!(c.type_ == ReqType.Ne)) = false := by
          rw [hbeq]
          rfl
        rw [hpred]
        simp only [Bool.false_eq_true, if_false]
        exact ih acc hacc (fun x hx => hl x (List.mem_cons_of_mem _ hx))
      · have hs := rangeFor_simple c (hl c (List.mem_cons_self _ _))
        rw [List.map_cons, List.foldl_cons, List.filter_cons]
        have hbeq : (c.type_ == ReqType.Ne) = false := by
          cases hct : c.type_ <;> first | rfl | exact absurd hct hNe
        have hpred : (!(c.type_ == ReqType.Ne)) = true := by
          rw [hbeq]
          rfl
        rw [hpred]
        simp only [if_true]
        rw [List.map_cons, List.foldl_cons]
        exact ih _ (step_inv _ hs.1 hs.2 acc hacc)
          (fun x hx => hl x (List.mem_cons_of_mem _ hx))

theorem simple_vge_false {u w : Version} (hu : simpleV u) (hw : simpleV w) :
    vge u w = false ↔ ltTriple u w := by
  rw [Bool.eq_false_iff, Ne, simple_vge hu hw, not_not]

theorem simple_vminR_simple {u w : Version} (hu : simpleV u) (hw : simpleV w) :
    simpleV (vminR u w) := by
  rw [simple_vminR hu hw]
  by_cases h : ltTriple w u <;> simp [h, hu, hw]

/-- `intersection` of a single range with the initial accumulator of
`intersection_many2`. -/
theorem step_init (r : Version × Version) (hr1 : simpleV r.1) (hr2 : simpleV r.2) :
    intersection [r] [(Version.new 0 0 0, Version.new MAX_VER 0 0)]
      = if ltTriple (Version.new MAX_VER 0 0) r.1 then []
        else [(r.1, vminR r.2 (Version.new MAX_VER 0 0))] := by
  have hz := simpleV_new 0 0 0
  have hM := simpleV_new MAX_VER 0 0
  rw [intersection_single]
  have hc2 : vge r.2 (Version.new 0 0 0) = true := by
    rw [simple_vge hr2 hz]
    exact not_ltTriple_zero
  by_cases hcond : ltTriple (Version.new MAX_VER 0 0) r.1
  · have hc1 : vge (Version.new MAX_VER 0 0) r.1 = false := by
      rw [simple_vge_false hM hr1]
      exact hcond
    simp [hc1, hcond]
  · have hc1 : vge (Version.new MAX_VER 0 0) r.1 = true := by
      rw [simple_vge hM hr1]
      exact hcond
    have hmax : vmaxR (Version.new 0 0 0) r.1 = r.1 := by
      rw [simple_vmaxR hz hr1, if_neg not_ltTriple_zero]
    simp [hc1, hc2, hcond, hmax]

theorem step_singleton (r e : Version × Version) :
    intersection [r] [e]
      = if (vge e.2 r.1 && vge r.2 e.1) = true
        then [(vmaxR e.1 r.1, vminR r.2 e.2)] else [] := by
  show (if (vge e.2 r.1 && vge r.2 e.1) = true
      then ([] : List (Version × Version)) ++ [(vmaxR e.1 r.1, vminR r.2 e.2)]
      else []) = _
  by_cases h : (vge e.2 r.1 && vge r.2 e.1) = true
  · rw [if_pos h, if_pos h]
    rfl
  · rw [if_neg h, if_neg h]

theorem step_nil (r : Version × Version) : intersection [r] [] = [] := by
  rw [intersection_single]
  rfl

theorem simple_vmaxR_comm {u w : Version} (hu : simpleV u) (hw : simpleV w) :
    vmaxR u w = vmaxR w u := by
  rw [simple_vmaxR hu hw, simple_vmaxR hw hu]
  by_cases h1 : ltTriple w u
  · have h2 : ¬ ltTriple u w := by
      simp only [ltTriple] at h1 ⊢
      omega
    rw [if_pos h1, if_neg h2]
  · rw [if_neg h1]
    by_cases h2 : ltTriple u w
    · rw [if_pos h2]
    · rw [if_neg h2]
      refine simple_eq_of_triple hw hu ?_ ?_ ?_ <;>
        (simp only [ltTriple] at h1 h2
         omega)

theorem simple_vminR_left_comm {a b c : Version}
    (ha : simpleV a) (hb : simpleV b) (hc : simpleV c) :
    vminR a (vminR b c) = vminR b (vminR a c) := by
  have hbc := simple_vminR_simple hb hc
  have hac := simple_vminR_simple ha hc
  rw [simple_vminR ha hbc, simple_vminR hb hac, simple_vminR hb hc,
    simple_vminR ha hc]
  by_cases h1 : ltTriple c b
  · by_cases h2 : ltTriple c a
    · rw [if_pos h1, if_pos h2, if_pos h1]
    · rw [if_pos h1, if_neg h2]
      have h3 : ltTriple a b := by
        simp only [ltTriple] at h1 h2 ⊢
        omega
      rw [if_pos h3]
  · by_cases h2 : ltTriple c a
    · rw [if_neg h1, if_pos h2, if_neg h1]
      have h3 : ltTriple b a := by
        simp only [ltTriple] at h1 h2 ⊢
        omega
      rw [if_pos h3]
    · rw [if_neg h1, if_neg h2]
      by_cases h3 : ltTriple b a
      · have h4 : ¬ ltTriple a b := by
          simp only [ltTriple] at h3 ⊢
          omega
        rw [if_pos h3, if_neg h4]
      · rw [if_neg h3]
        by_cases h4 : ltTriple a b
        · rw [if_pos h4]
        · rw [if_neg h4]
          refine simple_eq_of_triple ha hb ?_ ?_ ?_ <;>
            (simp only [ltTriple] at h3 h4
             omega)

/-- Two fold steps from the initial accumulator commute when both ranges have
simple endpoints. -/
theorem two_step_comm (p q : Version × Version)
    (hp1 : simpleV p.1) (hp2 : simpleV p.2) (hq1 : simpleV q.1) (hq2 : simpleV q.2) :
    intersection [q] (intersection [p] [(Version.new 0 0 0, Version.new MAX_VER 0 0)])
      = intersection [p] (intersection [q] [(Version.new 0 0 0, Version.new MAX_VER 0 0)]) := by
  have hM := simpleV_new MAX_VER 0 0
  have hminp := simple_vminR_simple hp2 hM
  have hminq := simple_vminR_simple hq2 hM
  rw [step_init p hp1 hp2, step_init q hq1 hq2]
  by_cases hA : ltTriple (Version.new MAX_VER 0 0) p.1
  · by_cases hB : ltTriple (Version.new MAX_VER 0 0) q.1
    · rw [if_pos hA, if_pos hB, step_nil, step_nil]
    · rw [if_pos hA, if_neg hB, step_nil, step_singleton]
      dsimp only
      have hfalse : vge (vminR q.2 (Version.new MAX_VER 0 0)) p.1 = false := by
        rw [simple_vge_false hminq hp1, simple_vminR hq2 hM]
        by_cases hb : ltTriple (Version.new MAX_VER 0 0) q.2
        · rw [if_pos hb]
          exact hA
        · rw [if_neg hb]
          simp only [ltTriple] at hA hb ⊢
          omega
      rw [hfalse]
      simp
  · by_cases hB : ltTriple (Version.new MAX_VER 0 0) q.1
    · rw [if_neg hA, if_pos hB, step_nil, step_singleton]
      dsimp only
      have hfalse : vge (vminR p.2 (Version.new MAX_VER 0 0)) q.1 = false := by
        rw [simple_vge_false hminp hq1, simple_vminR hp2 hM]
        by_cases hb : ltTriple (Version.new MAX_VER 0 0) p.2
        · rw [if_pos hb]
          exact hB
        · rw [if_neg hb]
          simp only [ltTriple] at hB hb ⊢
          omega
      rw [hfalse]
      simp
    · rw [if_neg hA, if_neg hB, step_singleton, step_singleton]
      dsimp only
      have hcond : (vge (vminR p.2 (Version.new MAX_VER 0 0)) q.1 && vge q.2 p.1)
          = (vge (vminR q.2 (Version.new MAX_VER 0 0)) p.1 && vge p.2 q.1) := by
        rw [Bool.eq_iff_iff, Bool.and_eq_true, Bool.and_eq_true,
          simple_vge hminp hq1, simple_vge hq2 hp1,
          simple_vge hminq hp1, simple_vge hp2 hq1,
          simple_vminR hp2 hM, simple_vminR hq2 hM]
        by_cases hb1 : ltTriple (Version.new MAX_VER 0 0) p.2 <;>
          by_cases hb2 : ltTriple (Version.new MAX_VER 0 0) q.2
        · rw [if_pos hb1, if_pos hb2]
          simp only [ltTriple] at hA hB hb1 hb2 ⊢
          omega
        · rw [if_pos hb1, if_neg hb2]
          simp only [ltTriple] at hA hB hb1 hb2 ⊢
          omega
        · rw [if_neg hb1, if_pos hb2]
          simp only [ltTriple] at hA hB hb1 hb2 ⊢
          omega
        · rw [if_neg hb1, if_neg hb2]
          simp only [ltTriple] at hA hB hb1 hb2 ⊢
          omega
      rw [hcond, simple_vmaxR_comm hp1 hq1, simple_vminR_left_comm hq2 hp2 hM]

theorem simple_vmaxR_simple {u w : Version} (hu : simpleV u) (hw : simpleV w) :
    simpleV (vmaxR u w) := by
  rw [simple_vmaxR hu hw]
  by_cases h : ltTriple w u <;> simp [h, hu, hw]

theorem ltTriple_le_trans {a b c : Version}
    (h1 : ¬ ltTriple b a) (h2 : ¬ ltTriple c b) : ¬ ltTriple c a := by
  simp only [ltTriple] at h1 h2 ⊢
  omega

theorem simple_vminR_le_left {u w : Version} (hu : simpleV u) (hw : simpleV w) :
    ¬ ltTriple u (vminR u w) := by
  rw [simple_vminR hu hw]
  by_cases h : ltTriple w u
  · rw [if_pos h]
    simp only [ltTriple] at h ⊢
    omega
  · rw [if_neg h]
    simp only [ltTriple]
    omega

theorem simple_vminR_le_right {u w : Version} (hu : simpleV u) (hw : simpleV w) :
    ¬ ltTriple w (vminR u w) := by
  rw [simple_vminR hu hw]
  by_cases h : ltTriple w u
  · rw [if_pos h]
    simp only [ltTriple]
    omega
  · rw [if_neg h]
    simp only [ltTriple] at h ⊢
    omega

theorem simple_le_vminR {u w z : Version} (hu : simpleV u) (hw : simpleV w)
    (h1 : ¬ ltTriple u z) (h2 : ¬ ltTriple w z) : ¬ ltTriple (vminR u w) z := by
  rw [simple_vminR hu hw]
  by_cases h : ltTriple w u
  · rw [if_pos h]
    exact h2
  · rw [if_neg h]
    exact h1

theorem simple_le_vmaxR_left {u w : Version} (hu : simpleV u) (hw : simpleV w) :
    ¬ ltTriple (vmaxR u w) u := by
  rw [simple_vmaxR hu hw]
  by_cases h : ltTriple w u
  · rw [if_pos h]
    simp only [ltTriple]
    omega
  · rw [if_neg h]
    simp only [ltTriple] at h ⊢
    omega

theorem simple_le_vmaxR_right {u w : Version} (hu : simpleV u) (hw : simpleV w) :
    ¬ ltTriple (vmaxR u w) w := by
  rw [simple_vmaxR hu hw]
  by_cases h : ltTriple w u
  · rw [if_pos h]
    simp only [ltTriple] at h ⊢
    omega
  · rw [if_neg h]
    simp only [ltTriple]
    omega

theorem simple_vmaxR_le {u w z : Version} (hu : simpleV u) (hw : simpleV w)
    (h1 : ¬ ltTriple z u) (h2 : ¬ ltTriple z w) : ¬ ltTriple z (vmaxR u w) := by
  rw [simple_vmaxR hu hw]
  by_cases h : ltTriple w u
  · rw [if_pos h]
    exact h1
  · rw [if_neg h]
    exact h2

theorem simple_vmaxR_right_comm {e x y : Version}
    (he : simpleV e) (hx : simpleV x) (hy : simpleV y) :
    vmaxR (vmaxR e x) y = vmaxR (vmaxR e y) x := by
  have hex := simple_vmaxR_simple he hx
  have hey := simple_vmaxR_simple he hy
  rw [simple_vmaxR hex hy, simple_vmaxR hey hx, simple_vmaxR he hx,
    simple_vmaxR he hy]
  by_cases h1 : ltTriple x e
  · by_cases h2 : ltTriple y e
    · rw [if_pos h1, if_pos h2, if_pos h1]
    · rw [if_pos h1, if_neg h2]
      have h3 : ltTriple x y := by
        simp only [ltTriple] at h1 h2 ⊢
        omega
      rw [if_pos h3]
  · by_cases h2 : ltTriple y e
    · rw [if_neg h1, if_pos h2, if_neg h1]
      have h3 : ltTriple y x := by
        simp only [ltTriple] at h1 h2 ⊢
        omega
      rw [if_pos h3]
    · rw [if_neg h1, if_neg h2]
      by_cases h3 : ltTriple y x
      · have h4 : ¬ ltTriple x y := by
          simp only [ltTriple] at h3 ⊢
          omega
        rw [if_pos h3, if_neg h4]
      · rw [if_neg h3]
        by_cases h4 : ltTriple x y
        · rw [if_pos h4]
        · rw [if_neg h4]
          refine simple_eq_of_triple hy hx ?_ ?_ ?_ <;>
            (simp only [ltTriple] at h3 h4
             omega)

/-- Two fold steps over a singleton accumulator with simple endpoints
commute. -/
theorem step2_comm (x y e : Version × Version)
    (hx1 : simpleV x.1) (hx2 : simpleV x.2) (hy1 : simpleV y.1) (hy2 : simpleV y.2)
    (he1 : simpleV e.1) (he2 : simpleV e.2) :
    intersection [y] (intersection [x] [e])
      = intersection [x] (intersection [y] [e]) := by
  have hsmx := simple_vminR_simple hx2 he2
  have hsmy := simple_vminR_simple hy2 he2
  have hsMx := simple_vmaxR_simple he1 hx1
  have hsMy := simple_vmaxR_simple he1 hy1
  rw [step_singleton x e, step_singleton y e]
  by_cases hcx : (vge e.2 x.1 && vge x.2 e.1) = true
  · by_cases hcy : (vge e.2 y.1 && vge y.2 e.1) = true
    · rw [if_pos hcx, if_pos hcy, step_singleton, step_singleton]
      dsimp only
      have hcx' := hcx
      have hcy' := hcy
      rw [Bool.and_eq_true] at hcx' hcy'
      obtain ⟨hcx1, hcx2⟩ := hcx'
      obtain ⟨hcy1, hcy2⟩ := hcy'
      have h1 := (simple_vge he2 hx1).mp hcx1
      have h2 := (simple_vge hx2 he1).mp hcx2
      have h3 := (simple_vge he2 hy1).mp hcy1
      have h4 := (simple_vge hy2 he1).mp hcy2
      have hcond : (vge (vminR x.2 e.2) y.1 && vge y.2 (vmaxR e.1 x.1))
          = (vge (vminR y.2 e.2) x.1 && vge x.2 (vmaxR e.1 y.1)) := by
        rw [Bool.eq_iff_iff, Bool.and_eq_true, Bool.and_eq_true,
          simple_vge hsmx hy1, simple_vge hy2 hsMx,
          simple_vge hsmy hx1, simple_vge hx2 hsMy]
        constructor
        · rintro ⟨ha, hb⟩
          have hyx : ¬ ltTriple x.2 y.1 :=
            ltTriple_le_trans ha (simple_vminR_le_left hx2 he2)
          have hxy : ¬ ltTriple y.2 x.1 :=
            ltTriple_le_trans (simple_le_vmaxR_right he1 hx1) hb
          exact ⟨simple_le_vminR hy2 he2 hxy h1,
            simple_vmaxR_le he1 hy1 h2 hyx⟩
        · rintro ⟨ha, hb⟩
          have hxy : ¬ ltTriple y.2 x.1 :=
            ltTriple_le_trans ha (simple_vminR_le_left hy2 he2)
          have hyx : ¬ ltTriple x.2 y.1 :=
            ltTriple_le_trans (simple_le_vmaxR_right he1 hy1) hb
          exact ⟨simple_le_vminR hx2 he2 hyx h3,
            simple_vmaxR_le he1 hx1 h4 hxy⟩
      rw [hcond, simple_vmaxR_right_comm he1 hx1 hy1,
        simple_vminR_left_comm hy2 hx2 he2]
    · rw [if_pos hcx, if_neg hcy, step_nil, step_singleton]
      dsimp only
      cases hbv : (vge (vminR x.2 e.2) y.1 && vge y.2 (vmaxR e.1 x.1)) with
      | false => simp
      | true =>
          exfalso
          rw [Bool.and_eq_true] at hbv
          obtain ⟨hc1, hc2⟩ := hbv
          have hA := (simple_vge hsmx hy1).mp hc1
          have hB := (simple_vge hy2 hsMx).mp hc2
          rw [simple_vminR hx2 he2] at hA
          rw [simple_vmaxR he1 hx1] at hB
          apply hcy
          rw [Bool.and_eq_true, simple_vge he2 hy1, simple_vge hy2 he1]
          constructor
          · by_cases hb : ltTriple e.2 x.2
            · rw [if_pos hb] at hA
              exact hA
            · rw [if_neg hb] at hA
              simp only [ltTriple] at hA hb ⊢
              omega
          · by_cases hb : ltTriple x.1 e.1
            · rw [if_pos hb] at hB
              exact hB
            · rw [if_neg hb] at hB
              simp only [ltTriple] at hB hb ⊢
              omega
  · by_cases hcy : (vge e.2 y.1 && vge y.2 e.1) = true
    · rw [if_neg hcx, if_pos hcy, step_nil, step_singleton]
      dsimp only
      cases hbv : (vge (vminR y.2 e.2) x.1 && vge x.2 (vmaxR e.1 y.1)) with
      | false => simp
      | true =>
          exfalso
          rw [Bool.and_eq_true] at hbv
          obtain ⟨hc1, hc2⟩ := hbv
          have hA := (simple_vge hsmy hx1).mp hc1
          have hB := (simple_vge hx2 hsMy).mp hc2
          rw [simple_vminR hy2 he2] at hA
          rw [simple_vmaxR he1 hy1] at hB
          apply hcx
          rw [Bool.and_eq_true, simple_vge he2 hx1, simple_vge hx2 he1]
          constructor
          · by_cases hb : ltTriple e.2 y.2
            · rw [if_pos hb] at hA
              exact hA
            · rw [if_neg hb] at hA
              simp only [ltTriple] at hA hb ⊢
              omega
          · by_cases hb : ltTriple y.1 e.1
            · rw [if_pos hb] at hB
              exact hB
            · rw [if_neg hb] at hB
              simp only [ltTriple] at hB hb ⊢
              omega
    · rw [if_neg hcx, if_neg hcy, step_nil, step_nil]

/-- The fold step keeps the accumulator empty or a singleton with simple
endpoints. -/
theorem step_sing_inv (x : Version × Version)
    (hx1 : simpleV x.1) (hx2 : simpleV x.2) (acc : List (Version × Version))
    (hacc : acc = [] ∨ ∃ e, acc = [e] ∧ simpleV e.1 ∧ simpleV e.2) :
    intersection [x] acc = []
      ∨ ∃ e, intersection [x] acc = [e] ∧ simpleV e.1 ∧ simpleV e.2 := by
  rcases hacc with h | ⟨e, he, he1, he2⟩
  · subst h
    left
    exact step_nil x
  · subst he
    rw [step_singleton]
    by_cases hc : (vge e.2 x.1 && vge x.2 e.1) = true
    · right
      exact ⟨_, if_pos hc, simple_vmaxR_simple he1 hx1, simple_vminR_simple hx2 he2⟩
    · left
      exact if_neg hc

/-- Permuting the list of ranges does not change the fold of
`intersection_many2`, as long as all ranges have simple endpoints and the
accumulator is empty or a simple singleton (which the fold maintains). -/
theorem fold_perm : ∀ {rs1 rs2 : List (Version × Version)}, rs1.Perm rs2 →
    (∀ r ∈ rs1, simpleV r.1 ∧ simpleV r.2) →
    ∀ acc : List (Version × Version),
      (acc = [] ∨ ∃ e, acc = [e] ∧ simpleV e.1 ∧ simpleV e.2) →
      rs1.foldl (fun acc constraint_set => intersection [constraint_set] acc) acc
        = rs2.foldl (fun acc constraint_set => intersection [constraint_set] acc) acc := by
  intro rs1 rs2 hp
  induction hp with
  | nil =>
      intro _ acc _
      rfl
  | cons z hp ih =>
      intro hs acc hacc
      rw [List.foldl_cons, List.foldl_cons]
      have hz := hs z (List.mem_cons_self _ _)
      exact ih (fun r hr => hs r (List.mem_cons_of_mem _ hr)) _
        (step_sing_inv z hz.1 hz.2 acc hacc)
  | swap u v l =>
      intro hs acc hacc
      rw [List.foldl_cons, List.foldl_cons, List.foldl_cons, List.foldl_cons]
      have hu := hs u (by simp)
      have hv := hs v (by simp)
      have hcomm : intersection [u] (intersection [v] acc)
          = intersection [v] (intersection [u] acc) := by
        rcases hacc with h | ⟨e, he, he1, he2⟩
        · subst h
          simp only [step_nil]
        · subst he
          exact step2_comm v u e hv.1 hv.2 hu.1 hu.2 he1 he2
      rw [hcomm]
  | trans h1 h2 ih1 ih2 =>
      intro hs acc hacc
      rw [ih1 hs acc hacc]
      exact ih2 (fun r hr => hs r (h1.mem_iff.mpr hr)) acc hacc

theorem vle_eq_true_iff {a b : Version} :
    vle a b = true ↔ Version.cmp a b ≠ Ordering.gt := by
  unfold vle
  cases h : Version.cmp a b <;> simp

theorem vge_eq_true_iff {a b : Version} :
    vge a b = true ↔ Version.cmp a b ≠ Ordering.lt := by
  unfold vge
  cases h : Version.cmp a b <;> simp

theorem not_gt_of_not_lt {a b : Version} (h : Version.cmp a b ≠ Ordering.lt) :
    Version.cmp b a ≠ Ordering.gt := by
  intro hgt
  apply h
  rw [← cmp_swap b a, hgt]
  rfl

/-!
The claims.
-/

/-- Claim C1 (code bug): `is_compatible` and `compatible_range` are required to
agree for all eight operators, but the `Tilde` arm of `is_compatible` uses the
strict lower-bound test `min < *version` (unlike `Caret`'s `min <= *version`),
so `Tilde(1.2.3)` rejects `1.2.3` even though `1.2.3` lies inside its own
`compatible_range()` result `[(1.2.3, 1.2.999999)]`. -/
theorem c1_tilde_disagrees :
    (Constraint.new ReqType.Tilde (Version.new 1 2 3)).is_compatible
        (Version.new 1 2 3) = false
    ∧ inRanges ((Constraint.new ReqType.Tilde (Version.new 1 2 3)).compatible_range)
        (Version.new 1 2 3) = true := by
  constructor <;> rfl

/-- Claim C2 (counterexample): `intersection_many([Ne(5.1.3)])` does not return
the dual range `[(0.0.0, 5.1.2), (5.1.4, MAX_VER.0.0)]` — the `Ne` constraint
is folded as the full pass-through range. -/
theorem c2_counterexample :
    intersection_many [Constraint.new ReqType.Ne (Version.new 5 1 3)]
      ≠ [(Version.new 0 0 0, Version.new 5 1 2),
         (Version.new 5 1 4, Version.new MAX_VER 0 0)] := by
  decide

/-- Claim C2 (amended): `intersection_many([Ne(5.1.3)])` returns the single
full range `[(0.0.0, MAX_VER.0.0)]`; the two claimed ranges are what
`Ne(5.1.3).compatible_range()` returns. -/
theorem c2_amended :
    intersection_many [Constraint.new ReqType.Ne (Version.new 5 1 3)]
      = [(Version.new 0 0 0, Version.new MAX_VER 0 0)]
    ∧ (Constraint.new ReqType.Ne (Version.new 5 1 3)).compatible_range
      = [(Version.new 0 0 0, Version.new 5 1 2),
         (Version.new 5 1 4, Version.new MAX_VER 0 0)] := by
  constructor <;> rfl

/-- Claim C3 (counterexample): with versions carrying an extra numeric segment
or a modifier, removing the `Ne` constraints can change the result of
`intersection_many`, because the pass-through fold step can replace an
accumulated bound by an `Ord`-equal but structurally different version. -/
theorem c3_counterexample :
    intersection_many
        [Constraint.new ReqType.Gte ⟨0, 0, 0, some 0, none⟩,
         Constraint.new ReqType.Ne (Version.new 1 0 0),
         Constraint.new ReqType.Lte ⟨0, 0, 0, none, some (VersionModifier.Alpha, 1)⟩]
      ≠ intersection_many
          (([Constraint.new ReqType.Gte ⟨0, 0, 0, some 0, none⟩,
             Constraint.new ReqType.Ne (Version.new 1 0 0),
             Constraint.new ReqType.Lte ⟨0, 0, 0, none, some (VersionModifier.Alpha, 1)⟩]).filter
            (fun c => !(c.type_ == ReqType.Ne))) := by
  decide

/-- Claim C3 (amended): for every version `v`, `Ne(v).compatible_range()` is
the two ranges `[0.0.0, v-1]` (safe decrement) and `[v+1, MAX_VER.0.0]` (patch
increment); and inside `intersection_many` every `Ne` constraint is folded as
the full pass-through range, so on constraint lists whose versions carry no
extra segment and no modifier the result equals the result with all `Ne`
constraints removed. -/
theorem c3_ne_passthrough :
    (∀ v : Version,
        (Constraint.new ReqType.Ne v).compatible_range
          = [(Version.new 0 0 0,
              Version.new (safely_subtract v.major v.minor v.patch).1
                (safely_subtract v.major v.minor v.patch).2.1
                (safely_subtract v.major v.minor v.patch).2.2),
             (Version.new v.major v.minor (v.patch + 1),
              Version.new MAX_VER 0 0)])
    ∧ (∀ l : List Constraint, (∀ c ∈ l, simpleV c.version) →
        intersection_many l
          = intersection_many (l.filter (fun c => !(c.type_ == ReqType.Ne)))) := by
  constructor
  · intro v
    rfl
  · intro l hl
    unfold intersection_many intersection_many2
    exact fold_skip l _ AccInv_init hl

/-- Claim C3 (witness): the amended pass-through law at a concrete list. -/
theorem c3_witness :
    intersection_many
        [Constraint.new ReqType.Gte (Version.new 4 9 4),
         Constraint.new ReqType.Ne (Version.new 5 0 0),
         Constraint.new ReqType.Lt (Version.new 5 5 5)]
      = intersection_many
          (([Constraint.new ReqType.Gte (Version.new 4 9 4),
             Constraint.new ReqType.Ne (Version.new 5 0 0),
             Constraint.new ReqType.Lt (Version.new 5 5 5)]).filter
            (fun c => !(c.type_ == ReqType.Ne))) :=
  c3_ne_passthrough.2 _ (by decide)

/-- Claim C4 (code bug): `Version`'s derived structural equality and its
hand-written `Ord` disagree — `{1,0,0,extra_num: Some 0}` and `1.0.0` compare
`Equal` yet are structurally distinct, so none of `a < b`, `a = b`, `a > b`
holds for that pair and trichotomy with respect to structural equality fails. -/
theorem c4_cmp_eq_vs_structural :
    Version.cmp ⟨1, 0, 0, some 0, none⟩ ⟨1, 0, 0, none, none⟩ = Ordering.eq
    ∧ (⟨1, 0, 0, some 0, none⟩ : Version) ≠ ⟨1, 0, 0, none, none⟩
    ∧ vlt ⟨1, 0, 0, some 0, none⟩ ⟨1, 0, 0, none, none⟩ = false
    ∧ vgt ⟨1, 0, 0, some 0, none⟩ ⟨1, 0, 0, none, none⟩ = false := by
  refine ⟨rfl, by decide, rfl, rfl⟩

/-- Claim C5 (code bug): `Req::from_pip_str("abc==")` reaches the
`.expect("Problem parsing requirement")` call and panics instead of returning
the parse error kind. -/
theorem c5_from_pip_str_panics :
    Req.from_pip_str "abc==" = PipResult.panicked "Problem parsing requirement" := by
  rfl

/-- Claim C6: caret compatibility is exactly `[v, next_breaking)` with
`next_breaking` = `(major+1).0.0` if `major>0`, else `0.(minor+1).0` if
`minor>0`, else `0.0.(patch+2)`; concretely `Caret(1.2.3)` admits `1.9.9` but
not `2.0.0`, `Caret(0.2.3)` admits `0.2.9` but not `0.3.0`, and `Caret(0.0.3)`
admits `0.0.3` and `0.0.4` but not `0.0.5`. -/
theorem c6_caret_next_breaking :
    (∀ v x : Version,
        (Constraint.new ReqType.Caret v).is_compatible x
          = (vle v x && vlt x (nextBreaking v)))
    ∧ (Constraint.new ReqType.Caret (Version.new 1 2 3)).is_compatible
        (Version.new 1 9 9) = true
    ∧ (Constraint.new ReqType.Caret (Version.new 1 2 3)).is_compatible
        (Version.new 2 0 0) = false
    ∧ (Constraint.new ReqType.Caret (Version.new 0 2 3)).is_compatible
        (Version.new 0 2 9) = true
    ∧ (Constraint.new ReqType.Caret (Version.new 0 2 3)).is_compatible
        (Version.new 0 3 0) = false
    ∧ (Constraint.new ReqType.Caret (Version.new 0 0 3)).is_compatible
        (Version.new 0 0 3) = true
    ∧ (Constraint.new ReqType.Caret (Version.new 0 0 3)).is_compatible
        (Version.new 0 0 4) = true
    ∧ (Constraint.new ReqType.Caret (Version.new 0 0 3)).is_compatible
        (Version.new 0 0 5) = false := by
  refine ⟨fun v x => rfl, rfl, rfl, rfl, rfl, rfl, rfl, rfl⟩

/-- Claim C7: version parsing treats `*` as 0 and defaults missing minor/patch
to 0 (`parse("3.7") = {3,7,0}`, `parse("1.3.5.11") = {1,3,5,extra=11}`), and
fails with the single parse-error kind when the text does not match the
grammar, when a numeric capture overflows the `u32` range, or when a modifier
tag appears without its trailing number. -/
theorem c7_version_parse :
    Version.from_str "3.7" = Except.ok ⟨3, 7, 0, none, none⟩
    ∧ Version.from_str "1.3.5.11" = Except.ok ⟨1, 3, 5, some 11, none⟩
    ∧ Version.from_str "3.2.*" = Except.ok ⟨3, 2, 0, none, none⟩
    ∧ (∀ s : String, matchVersion (replaceStar s.toList) = none →
        Version.from_str s
          = Except.error
              ⟨"Problem parsing version: " ++ String.mk (replaceStar s.toList)⟩)
    ∧ (∀ (s : String) (caps : VerCaps),
        matchVersion (replaceStar s.toList) = some caps →
        4294967296 ≤ digitsToNat caps.g1 →
        ∃ e : DependencyError, Version.from_str s = Except.error e)
    ∧ Version.from_str "4294967296" = Except.error ⟨"Pare int error"⟩
    ∧ Version.from_str "1.2.3b"
        = Except.error ⟨"Problem parsing version: 1.2.3b"⟩ := by
  refine ⟨rfl, rfl, rfl, ?_, ?_, rfl, rfl⟩
  · intro s h
    simp only [Version.from_str, h]
  · intro s caps h hov
    refine ⟨⟨"Pare int error"⟩, ?_⟩
    have hp : parseU32 caps.g1 = Except.error ⟨"Pare int error"⟩ := by
      unfold parseU32
      rw [if_neg (by omega)]
    simp only [Version.from_str, h, hp]
    rfl

/-- Claim C7 (witness): the non-matching-text conjunct at the concrete input
`"3-7"`. -/
theorem c7_witness :
    Version.from_str "3-7"
      = Except.error
          ⟨"Problem parsing version: " ++ String.mk (replaceStar ("3-7").toList)⟩ :=
  c7_version_parse.2.2.2.1 "3-7" rfl

/-- Claim C8 (counterexample): reordering two constraints can change the
result of `intersection_many` when a version is `Ord`-equal but structurally
different from another bound (`{0,0,0,extra_num: Some 0}` versus `0.0.0`). -/
theorem c8_counterexample :
    intersection_many
        [Constraint.new ReqType.Gte ⟨0, 0, 0, some 0, none⟩,
         Constraint.new ReqType.Gte (Version.new 0 0 0)]
      ≠ intersection_many
          [Constraint.new ReqType.Gte (Version.new 0 0 0),
           Constraint.new ReqType.Gte ⟨0, 0, 0, some 0, none⟩] := by
  decide

/-- Claim C8 (amended): for every pair of constraint lists that denote the
same multiset of constraints in different orders — i.e. are permutations of
each other — and whose versions carry no extra numeric segment and no
modifier, `intersection_many` returns the same result; in particular
`intersection_many([c1,c2]) = intersection_many([c2,c1])` for all such
constraints `c1`, `c2`. -/
theorem c8_perm_invariant :
    (∀ l1 l2 : List Constraint, l1.Perm l2 →
        (∀ c ∈ l1, simpleV c.version) →
        intersection_many l1 = intersection_many l2)
    ∧ (∀ c1 c2 : Constraint, simpleV c1.version → simpleV c2.version →
        intersection_many [c1, c2] = intersection_many [c2, c1]) := by
  have hmain : ∀ l1 l2 : List Constraint, l1.Perm l2 →
      (∀ c ∈ l1, simpleV c.version) →
      intersection_many l1 = intersection_many l2 := by
    intro l1 l2 hp hs
    unfold intersection_many intersection_many2
    refine fold_perm (hp.map rangeFor) ?_ _ ?_
    · intro r hr
      rw [List.mem_map] at hr
      obtain ⟨c, hc, hrc⟩ := hr
      subst hrc
      exact rangeFor_simple c (hs c hc)
    · right
      exact ⟨_, rfl, simpleV_new 0 0 0, simpleV_new MAX_VER 0 0⟩
  refine ⟨hmain, ?_⟩
  intro c1 c2 h1 h2
  refine hmain [c1, c2] [c2, c1] (List.Perm.swap c2 c1 []) ?_
  intro c hc
  rcases List.mem_pair.mp hc with h | h <;> subst h <;> assumption

/-- Claim C8 (witness): permutation invariance at a concrete three-element
constraint list. -/
theorem c8_witness :
    intersection_many
        [Constraint.new ReqType.Gte (Version.new 4 9 4),
         Constraint.new ReqType.Lt (Version.new 5 5 5),
         Constraint.new ReqType.Ne (Version.new 2 0 0)]
      = intersection_many
          [Constraint.new ReqType.Ne (Version.new 2 0 0),
           Constraint.new ReqType.Gte (Version.new 4 9 4),
           Constraint.new ReqType.Lt (Version.new 5 5 5)] :=
  c8_perm_invariant.1 _ _ (by decide) (by decide)

/-- Claim C9: `intersection` returns, for every pair of ranges `(a,b)` from
`ranges1` and `(c,d)` from `ranges2`, the overlap `(max(c,a), min(b,d))`
exactly when `d ≥ a` and `b ≥ c`, and nothing otherwise; in particular
`Exact(4.9.4)` and `Gte(4.9.7)` together yield an empty result. -/
theorem c9_intersection_pairwise :
    (∀ ranges1 ranges2 : List (Version × Version),
        intersection ranges1 ranges2
          = ranges1.flatMap (fun rng1 => ranges2.filterMap (fun rng2 =>
              if vge rng2.2 rng1.1 && vge rng1.2 rng2.1 then
                some (vmaxR rng2.1 rng1.1, vminR rng1.2 rng2.2)
              else none)))
    ∧ (∀ (e : Version × Version) (ranges1 ranges2 : List (Version × Version)),
        e ∈ intersection ranges1 ranges2
          ↔ ∃ rng1 ∈ ranges1, ∃ rng2 ∈ ranges2,
              (vge rng2.2 rng1.1 && vge rng1.2 rng2.1) = true
              ∧ e = (vmaxR rng2.1 rng1.1, vminR rng1.2 rng2.2))
    ∧ intersection_many
        [Constraint.new ReqType.Exact (Version.new 4 9 4),
         Constraint.new ReqType.Gte (Version.new 4 9 7)] = [] := by
  refine ⟨intersection_eq, ?_, by decide⟩
  intro e r1 r2
  rw [intersection_eq, List.mem_flatMap]
  constructor
  · rintro ⟨a, ha, hb⟩
    rw [List.mem_filterMap] at hb
    obtain ⟨b, hbmem, hfb⟩ := hb
    by_cases hc : (vge b.2 a.1 && vge a.2 b.1) = true
    · rw [if_pos hc] at hfb
      exact ⟨a, ha, b, hbmem, hc, (Option.some_inj.mp hfb).symm⟩
    · rw [if_neg hc] at hfb
      cases hfb
  · rintro ⟨a, ha, b, hbmem, hc, he⟩
    refine ⟨a, ha, ?_⟩
    rw [List.mem_filterMap]
    refine ⟨b, hbmem, ?_⟩
    rw [if_pos hc, he]

/-- Claim C10: `intersection` preserves range well-formedness — if every input
range `(lo, hi)` satisfies `lo ≤ hi`, so does every output range. -/
theorem c10_intersection_preserves_wf (ranges1 ranges2 : List (Version × Version))
    (h1 : ∀ p ∈ ranges1, vle p.1 p.2 = true)
    (h2 : ∀ p ∈ ranges2, vle p.1 p.2 = true) :
    ∀ q ∈ intersection ranges1 ranges2, vle q.1 q.2 = true := by
  intro q hq
  rw [intersection_eq, List.mem_flatMap] at hq
  obtain ⟨a, ha, hb⟩ := hq
  rw [List.mem_filterMap] at hb
  obtain ⟨b, hbmem, hfb⟩ := hb
  by_cases hc : (vge b.2 a.1 && vge a.2 b.1) = true
  · rw [if_pos hc] at hfb
    rw [Bool.and_eq_true] at hc
    have ha2 := vle_eq_true_iff.mp (h1 a ha)
    have hb2 := vle_eq_true_iff.mp (h2 b hbmem)
    have hc1 := vge_eq_true_iff.mp hc.1
    have hc2 := vge_eq_true_iff.mp hc.2
    cases Option.some_inj.mp hfb
    dsimp only
    rw [vle_eq_true_iff]
    unfold vmaxR vminR
    rcases hmx : Version.cmp b.1 a.1 with _ | _ | _ <;>
      rcases hmn : Version.cmp a.2 b.2 with _ | _ | _ <;>
      dsimp only <;>
      first
        | exact ha2
        | exact hb2
        | exact not_gt_of_not_lt hc1
        | exact not_gt_of_not_lt hc2
  · rw [if_neg hc] at hfb
    cases hfb

/-- Claim C10 (witness): well-formedness of the overlap of two concrete
well-formed ranges. -/
theorem c10_witness :
    vle (Version.new 1 5 0) (Version.new 2 0 0) = true :=
  c10_intersection_preserves_wf
    [(Version.new 1 0 0, Version.new 2 0 0)]
    [(Version.new 1 5 0, Version.new 3 0 0)]
    (by decide) (by decide)
    (Version.new 1 5 0, Version.new 2 0 0) (by decide)

end DepTypes
